import Mathlib

/-!
# Verification of the vibe-score extraction and scoring pipeline

A shallow embedding of the algorithmic core of `src/index.tsx`: the diff
line classifiers (`isFixedPattern`, `isCommentLine`, `isNoiseLine`), the
per-file block accumulator of `extractSnippetsFromDiff`, the snippet
windower, the fingerprint/deduplication functions (`hashContent`,
`isSimilarSnippet`, `deduplicateSnippets`), the velocity aggregator
(`analyzeDailyVelocity`), the question sampler shares, and the scoring
engine (`calculateVibeMetrics`, the composite score of `ResultScreen`,
`getVibeRating`).

Numeric conventions: JavaScript numbers are modelled as `ℕ`/`ℤ`/`ℚ` with
exact arithmetic.  `Math.round x` becomes `⌊x + 1/2⌋` (ties toward +∞,
which is the ECMAScript convention).  `Math.floor (L * 0.7)` is modelled
as `7 * L / 10` in `ℕ`: the two agree for every `L < 90`, and from `L = 18`
upward both sides of any divergence exceed the `MAX_SNIPPET_LINES = 12`
cap, so the clamped window length is identical for all `L`.
`Math.ceil (Q * 0.6)` equals the exact `⌈3Q/5⌉` for all `Q`.
JavaScript strings are modelled as `List Char` (the sources under test are
ASCII, where UTF-16 length equals character count).
-/

namespace VibeScore

/-- Constant `MIN_SNIPPET_LINES` from `src/index.tsx`. -/
def MIN_SNIPPET_LINES : ℕ := 4

/-- Constant `MAX_SNIPPET_LINES` from `src/index.tsx`. -/
def MAX_SNIPPET_LINES : ℕ := 12

/-- Constant `MEMORY_QUESTIONS` from `src/index.tsx`. -/
def MEMORY_QUESTIONS : ℕ := 10

/-- Constant `COMMENT_QUESTIONS` from `src/index.tsx`. -/
def COMMENT_QUESTIONS : ℕ := 10

/-- ECMAScript `Math.round` on exact rationals: nearest integer, ties toward +∞. -/
def jsRound (q : ℚ) : ℤ := ⌊q + 1 / 2⌋

/-- The character class of the JavaScript regex `\s` (the whitespace
characters relevant to the ASCII/Latin-1 inputs modelled here). -/
def isJsSpace (c : Char) : Bool :=
  c == ' ' || c == '\t' || c == '\n' || c == '\r' || c == '\x0b' || c == '\x0c' ||
    c == '\u00A0'

/-- The character class of the JavaScript regex `\w`: `[A-Za-z0-9_]`. -/
def isWordChar (c : Char) : Bool :=
  ('a' ≤ c && c ≤ 'z') || ('A' ≤ c && c ≤ 'Z') || ('0' ≤ c && c ≤ '9') || c == '_'

/-- The character class `[A-Z]`. -/
def isUpperAZ (c : Char) : Bool := 'A' ≤ c && c ≤ 'Z'

/-- JavaScript `String.prototype.trim`, on the character-list view. -/
def jsTrimList (l : List Char) : List Char :=
  ((l.dropWhile isJsSpace).reverse.dropWhile isJsSpace).reverse

/-- JavaScript `line.trim()` for a Lean `String`. -/
def jsTrim (s : String) : List Char := jsTrimList s.toList

/-- JavaScript `s.startsWith(pre)` (on the character-list view, so that it
evaluates by kernel reduction). -/
def strStartsWith (s pre : String) : Bool := pre.toList.isPrefixOf s.toList

/-- JavaScript `s.substring(n)` for ASCII strings. -/
def strDrop (s : String) (n : ℕ) : String := String.mk (s.toList.drop n)

/-! ## Regex matching combinators

Continuation-passing matchers over `List Char`.  A matcher consumes a
prefix of the input and hands the rest to the continuation `k`; repetition
combinators try every split, which gives full regex backtracking for the
patterns of `src/index.tsx` (whose atoms are literals and character
classes). -/

/-- Match the literal `pre`, then continue with `k` (regex `abc...`). -/
def litM (pre : List Char) (k : List Char → Bool) (s : List Char) : Bool :=
  pre.isPrefixOf s && k (s.drop pre.length)

/-- Match one character of class `cls`, then continue (regex `[c]`). -/
def chM (cls : Char → Bool) (k : List Char → Bool) : List Char → Bool
  | [] => false
  | c :: rest => cls c && k rest

/-- Match zero or more characters of class `cls`, then continue, trying
every split (regex `[c]*`). -/
def manyM (cls : Char → Bool) (k : List Char → Bool) : List Char → Bool
  | [] => k []
  | c :: rest => k (c :: rest) || (cls c && manyM cls k rest)

/-- Match one or more characters of class `cls`, then continue (regex `[c]+`). -/
def many1M (cls : Char → Bool) (k : List Char → Bool) : List Char → Bool
  | [] => false
  | c :: rest => cls c && manyM cls k rest

/-- Accept the remainder unconditionally (an unanchored pattern end). -/
def anyTail : List Char → Bool := fun _ => true

/-- Require the end of the string (regex `$`). -/
def atEnd : List Char → Bool := List.isEmpty

/-- regex `\s*` then `k`. -/
def wsM : (List Char → Bool) → List Char → Bool := manyM isJsSpace

/-- regex `\s+` then `k`. -/
def ws1M : (List Char → Bool) → List Char → Bool := many1M isJsSpace

/-- regex `\w+` then `k`. -/
def wplusM : (List Char → Bool) → List Char → Bool := many1M isWordChar

/-! ## The pattern tables of `src/index.tsx`

Each entry of `FIXED_PATTERNS` / `COMMENT_PATTERNS` is a `^`-anchored
regex applied (via `.test`) to the trimmed line; it is embedded as a
matcher on the trimmed character list. -/

/-- The token alternation of `FIXED_PATTERNS[1]`:
`(\{|class|function|const|let|var|interface|type|enum)`. -/
def exportTokM (s : List Char) : Bool :=
  litM [ '\x7b' ] anyTail s || litM "class".toList anyTail s ||
    litM "function".toList anyTail s || litM "const".toList anyTail s ||
    litM "let".toList anyTail s || litM "var".toList anyTail s ||
    litM "interface".toList anyTail s || litM "type".toList anyTail s ||
    litM "enum".toList anyTail s

/-- Alternation `(fn|struct|enum|trait|impl|mod|use|const|static)` from the Rust `pub` rule. -/
def pubTokM (s : List Char) : Bool :=
  litM "fn".toList anyTail s || litM "struct".toList anyTail s ||
    litM "enum".toList anyTail s || litM "trait".toList anyTail s ||
    litM "impl".toList anyTail s || litM "mod".toList anyTail s ||
    litM "use".toList anyTail s || litM "const".toList anyTail s ||
    litM "static".toList anyTail s

/-- Alternation `(class|interface|enum)` from the Java access-modifier rules. -/
def javaTokM (s : List Char) : Bool :=
  litM "class".toList anyTail s || litM "interface".toList anyTail s ||
    litM "enum".toList anyTail s

/-- The character class `[\{\}\[\]\(\);,]` (pure-punctuation rule). -/
def isPunctChar (c : Char) : Bool :=
  c == '\x7b' || c == '\x7d' || c == '[' || c == ']' || c == '(' || c == ')' ||
    c == ';' || c == ','

/-- Table `FIXED_PATTERNS` from `src/index.tsx` (in source order, duplicates kept):
the boilerplate filter's 30 `^`-anchored regexes. -/
def FIXED_PATTERNS : List (List Char → Bool) :=
  [ litM "import".toList (ws1M anyTail),
    litM "export".toList (ws1M (fun s =>
      litM "default".toList (ws1M exportTokM) s || exportTokM s)),
    litM "const".toList (ws1M (wplusM (wsM (litM [ '=' ] (wsM (litM "use".toList
      (chM isUpperAZ (manyM isWordChar (litM [ '(' ] anyTail))))))))),
    litM "const".toList (wsM (litM [ '[' ] (wsM (wplusM (wsM (litM [ ',' ]
      (wsM (litM "set".toList (chM isUpperAZ anyTail))))))))),
    litM "const".toList (ws1M (litM [ '\x7b' ] (wsM (wplusM (wsM (litM [ '\x7d' ]
      (wsM (litM [ '=' ] (wsM (litM "use".toList (wplusM anyTail))))))))))),
    litM "module.exports".toList anyTail,
    litM "require(".toList anyTail,
    litM "from".toList (ws1M (many1M (fun c => !isJsSpace c)
      (ws1M (litM "import".toList anyTail)))),
    litM "import".toList (ws1M (many1M (fun c => !isJsSpace c) anyTail)),
    litM "def".toList (ws1M (litM "__".toList (many1M isWordChar
      (litM "__".toList anyTail)))),
    litM "class".toList (ws1M (wplusM (wsM (fun s =>
      litM [ '(' ] anyTail s || litM [ ':' ] anyTail s)))),
    litM "package".toList (ws1M anyTail),
    litM "import".toList (wsM (litM [ '(' ] anyTail)),
    litM "func".toList (ws1M (litM [ '(' ] (wplusM (ws1M (fun s =>
      litM [ '*' ] (wplusM (litM [ ')' ] (ws1M (wplusM anyTail)))) s ||
        wplusM (litM [ ')' ] (ws1M (wplusM anyTail))) s))))),
    litM "use".toList (ws1M anyTail),
    litM "mod".toList (ws1M anyTail),
    litM "pub".toList (ws1M pubTokM),
    litM "package".toList (ws1M anyTail),
    litM "import".toList (ws1M anyTail),
    litM "public".toList (ws1M javaTokM),
    litM "private".toList (ws1M javaTokM),
    litM "require".toList (ws1M anyTail),
    litM "require_relative".toList (ws1M anyTail),
    litM "module".toList (ws1M anyTail),
    litM "#include".toList (ws1M anyTail),
    litM "#define".toList (ws1M anyTail),
    litM "#pragma".toList (ws1M anyTail),
    litM "using".toList (ws1M (litM "namespace".toList anyTail)),
    many1M isPunctChar atEnd,
    wsM atEnd ]

/-- Table `COMMENT_PATTERNS` from `src/index.tsx`: the comment-starter regexes.
`^#(?!\!)` is a literal `#` not followed by `!`. -/
def COMMENT_PATTERNS : List (List Char → Bool) :=
  [ litM "//".toList anyTail,
    litM "/*".toList anyTail,
    litM [ '*' ] anyTail,
    litM [ '#' ] (fun r => match r with | [] => true | c :: _ => !(c == '!')),
    litM "--".toList anyTail,
    litM [ '"', '"', '"' ] anyTail,
    litM [ Char.ofNat 39, Char.ofNat 39, Char.ofNat 39 ] anyTail,
    litM [ ';' ] anyTail,
    litM "\x7b-".toList anyTail ]

/-- Function `isFixedPattern` from `src/index.tsx`: trims the line, then tests each
fixed pattern. -/
def isFixedPattern (line : String) : Bool :=
  FIXED_PATTERNS.any (fun p => p (jsTrim line))

/-- Function `isCommentLine` from `src/index.tsx`. -/
def isCommentLine (line : String) : Bool :=
  COMMENT_PATTERNS.any (fun p => p (jsTrim line))

/-- Function `isNoiseLine` from `src/index.tsx`: empty, shorter than 8 characters,
pure punctuation/whitespace (`^[\{\}\[\]\(\);,\s]+$`), or one of the
closing tokens (`^(else|end|endif|fi|done|esac|\}|\);?)$`). -/
def isNoiseLine (line : String) : Bool :=
  let t := jsTrim line
  if t.isEmpty then true
  else if t.length < 8 then true
  else if many1M (fun c => isPunctChar c || isJsSpace c) atEnd t then true
  else if t = "else".toList || t = "end".toList || t = "endif".toList ||
      t = "fi".toList || t = "done".toList || t = "esac".toList ||
      t = [ '\x7d' ] || t = [ ')' ] || t = ");".toList then true
  else false

/-! ## The per-file block accumulator of `extractSnippetsFromDiff`

`src/index.tsx` lines 373–445: for one retained file's diff lines, a loop
over the lines maintaining the current code block, the current comment
block, a 5-line context ring, and the `inHunk` flag.  The loop state and
the per-line transition are embedded verbatim. -/

/-- A finished comment block: the comment lines paired with up to the last
two context lines (`commentBlocksWithContext` entries). -/
structure CommentBlock where
  comment : List String
  context : List String
deriving DecidableEq, Repr

/-- The mutable state of the extraction loop in `extractSnippetsFromDiff`. -/
structure ScanState where
  codeBlocks : List (List String)
  commentBlocks : List CommentBlock
  currentCode : List String
  currentComment : List String
  contextBuffer : List String
  inHunk : Bool
deriving DecidableEq, Repr

/-- The initial loop state (all buffers empty, `inHunk = false`). -/
def initScanState : ScanState := ⟨[], [], [], [], [], false⟩

/-- Source `contextBuffer.slice(-2)`: the last two (or fewer) context lines. -/
def contextTail (l : List String) : List String := l.drop (l.length - 2)

/-- Source `contextBuffer.push(line); if (length > 5) shift()`: append, capped at 5. -/
def pushContext (buf : List String) (x : String) : List String :=
  let b := buf ++ [x]
  if 5 < b.length then b.drop 1 else b

/-- One iteration of the line loop of `extractSnippetsFromDiff`
(src/index.tsx lines 382–434), for a single diff line. -/
def scanStep (s : ScanState) (line : String) : ScanState :=
  if strStartsWith line "@@" then
    { s with
      inHunk := true
      codeBlocks :=
        if MIN_SNIPPET_LINES ≤ s.currentCode.length then s.codeBlocks ++ [s.currentCode]
        else s.codeBlocks
      currentCode := [] }
  else if !s.inHunk then s
  else if strStartsWith line "+" && !strStartsWith line "+++" then
    let codeLine := strDrop line 1
    if isFixedPattern codeLine then s
    else if isCommentLine codeLine && 15 < (jsTrim codeLine).length then
      { s with currentComment := s.currentComment ++ [codeLine] }
    else
      let s1 :=
        if s.currentComment.length > 0 then
          { s with
            commentBlocks :=
              s.commentBlocks ++ [⟨s.currentComment, contextTail s.contextBuffer⟩]
            currentComment := [] }
        else s
      if !isNoiseLine codeLine then
        { s1 with
          currentCode := s1.currentCode ++ [codeLine]
          contextBuffer := pushContext s1.contextBuffer codeLine }
      else if MIN_SNIPPET_LINES ≤ s1.currentCode.length then
        { s1 with codeBlocks := s1.codeBlocks ++ [s1.currentCode], currentCode := [] }
      else s1
  else if strStartsWith line "-" || strStartsWith line " " then
    if MIN_SNIPPET_LINES ≤ s.currentCode.length then
      { s with codeBlocks := s.codeBlocks ++ [s.currentCode], currentCode := [] }
    else s
  else s

/-- The end-of-file-section flush of `extractSnippetsFromDiff`
(src/index.tsx lines 436–445). -/
def finishScan (s : ScanState) : ScanState :=
  let s1 :=
    if MIN_SNIPPET_LINES ≤ s.currentCode.length then
      { s with codeBlocks := s.codeBlocks ++ [s.currentCode], currentCode := [] }
    else s
  if s1.currentComment.length > 0 then
    { s1 with
      commentBlocks :=
        s1.commentBlocks ++ [⟨s1.currentComment, contextTail s1.contextBuffer⟩]
      currentComment := [] }
  else s1

/-- The whole per-file scan: fold the line loop, then flush. -/
def scanFileLines (lines : List String) : ScanState :=
  finishScan (lines.foldl scanStep initScanState)

/-! ## The snippet windower (src/index.tsx lines 448–467) -/

/-- The window length chosen for a finished code block of length `L`:
`Math.min(maxLen, Math.max(MIN_SNIPPET_LINES, Math.floor(L * 0.7)))` with
`maxLen = Math.min(MAX_SNIPPET_LINES, L)`.  `Math.floor (L * 0.7)` is
modelled as `7 * L / 10` (see the file header: the IEEE-754 value agrees
for all `L < 90`, and past the cap the divergence is absorbed by the
`min`). -/
def windowLen (L : ℕ) : ℕ :=
  min (min MAX_SNIPPET_LINES L) (max MIN_SNIPPET_LINES (7 * L / 10))

/-- Source `block.slice(startIdx, startIdx + len)` with the window length above;
`startIdx` is the uniformly drawn start offset. -/
def windowSnippet (block : List String) (startIdx : ℕ) : List String :=
  (block.drop startIdx).take (windowLen block.length)

/-! ## Fingerprints and deduplication (src/index.tsx lines 213–233, 490–518) -/

/-- Source `content.join("\n")` on the character-list view. -/
def joinLines : List String → List Char
  | [] => []
  | [s] => s.toList
  | s :: rest => s.toList ++ '\n' :: joinLines rest

/-- Source `replace(/\s+/g, " ")`: collapse every maximal whitespace run to one
space.  `prevSpace` records whether the previous character was part of a
run already replaced. -/
def collapseWs : Bool → List Char → List Char
  | _, [] => []
  | prevSpace, c :: rest =>
    if isJsSpace c then
      if prevSpace then collapseWs true rest else ' ' :: collapseWs true rest
    else c :: collapseWs false rest

/-- Function `hashContent` from `src/index.tsx`:
`content.join("\n").trim().replace(/\s+/g, " ").substring(0, 200)`. -/
def hashContent (content : List String) : List Char :=
  (collapseWs false (jsTrimList (joinLines content))).take 200

/-- The positional-agreement count of `isSimilarSnippet`: the number of
indices `i < min (len a) (len b)` with `a[i] == b[i]`. -/
def countSame : List Char → List Char → ℕ
  | a :: ra, b :: rb => (if a = b then 1 else 0) + countSame ra rb
  | _, _ => 0

/-- Function `isSimilarSnippet` from `src/index.tsx`: byte-identical fingerprints,
or a positional match ratio strictly above 0.8 over the shorter
fingerprint length.  (`same / 0 = NaN` in JavaScript and `NaN > 0.8` is
false; in `ℚ`, `same / 0 = 0 > 4/5` is false as well.) -/
def isSimilarSnippet (a b : List String) : Bool :=
  let hashA := hashContent a
  let hashB := hashContent b
  if hashA = hashB then true
  else
    let minLen := min hashA.length hashB.length
    decide ((countSame hashA hashB : ℚ) / (minLen : ℚ) > 4 / 5)

/-- A fragment as seen by `deduplicateSnippets`: its content lines
(`snippet.code || snippet.comment || []`) and its `hash` field. -/
structure Fragment where
  content : List String
  hash : List Char
deriving DecidableEq, Repr

/-- Fragment creation as in `extractSnippetsFromDiff`: the `hash` field is
set to `hashContent` of the content. -/
def mkFragment (content : List String) : Fragment :=
  ⟨content, hashContent content⟩

/-- The loop of `deduplicateSnippets` (src/index.tsx lines 490–518): skip a
fragment whose `hash` is in `seen`; otherwise compare its content against
every already-accepted fragment with `isSimilarSnippet`, and accept (adding
its hash to `seen`) only if none matches. -/
def dedupLoop : List Fragment → List (List Char) → List Fragment → List Fragment
  | [], _, result => result
  | f :: rest, seen, result =>
    if f.hash ∈ seen then dedupLoop rest seen result
    else if result.any fun e => isSimilarSnippet f.content e.content then
      dedupLoop rest seen result
    else dedupLoop rest (seen ++ [f.hash]) (result ++ [f])

/-- Function `deduplicateSnippets` from `src/index.tsx`. -/
def deduplicateSnippets (snippets : List Fragment) : List Fragment :=
  dedupLoop snippets [] []

/-- The deduplication described by the claim: scan in order and reject a
fragment exactly when it is similar to some already-accepted fragment (no
`seen` short-cut).  Used to state the refinement in C7. -/
def dedupSpecLoop : List Fragment → List Fragment → List Fragment
  | [], result => result
  | f :: rest, result =>
    if result.any fun e => isSimilarSnippet f.content e.content then
      dedupSpecLoop rest result
    else dedupSpecLoop rest (result ++ [f])

/-- The claim-side deduplication (see `dedupSpecLoop`). -/
def dedupSpec (snippets : List Fragment) : List Fragment :=
  dedupSpecLoop snippets []

/-! ## Velocity aggregation (src/index.tsx lines 524–575) -/

/-- Record `DailyCodeStats` from `src/index.tsx`. -/
structure DailyCodeStats where
  date : String
  linesAdded : ℕ
  commits : ℕ
  avgLinesPerCommit : ℤ
deriving DecidableEq, Repr

/-- One step of the `dailyStats` map accumulation: JavaScript `Map`
preserves insertion order, so the map is an association list updated in
place (new dates appended). -/
def updateStats : List (String × ℕ × ℕ) → String × ℕ → List (String × ℕ × ℕ)
  | [], (d, n) => [(d, n, 1)]
  | (d', l, c) :: rest, (d, n) =>
    if d' = d then (d', l + n, c + 1) :: rest
    else (d', l, c) :: updateStats rest (d, n)

/-- Stable insertion into a list sorted descending by `linesAdded`,
mirroring `sort((a, b) => b.linesAdded - a.linesAdded)` (ES2019 sort is
stable: an element moves before another only on a strictly greater key). -/
def insertDesc (x : DailyCodeStats) : List DailyCodeStats → List DailyCodeStats
  | [] => [x]
  | y :: ys => if y.linesAdded < x.linesAdded then x :: y :: ys else y :: insertDesc x ys

/-- Insertion sort descending by `linesAdded` (see `insertDesc`). -/
def sortByLinesDesc : List DailyCodeStats → List DailyCodeStats
  | [] => []
  | x :: xs => insertDesc x (sortByLinesDesc xs)

/-- Function `analyzeDailyVelocity` from `src/index.tsx`, over the per-commit
records it accumulates: each retained commit contributes its UTC date
string and its added-line count.  Aggregate per date, emit
`avgLinesPerCommit = Math.round(lines / commits)`, keep `linesAdded > 500`,
sort descending by `linesAdded`, truncate to 10. -/
def analyzeDailyVelocity (records : List (String × ℕ)) : List DailyCodeStats :=
  let stats := records.foldl updateStats []
  let results := stats.map fun e =>
    DailyCodeStats.mk e.1 e.2.1 e.2.2 (jsRound ((e.2.1 : ℚ) / (e.2.2 : ℚ)))
  (sortByLinesDesc (results.filter fun d => 500 < d.linesAdded)).take 10

/-! ## Question sampling and the post-sampling gate (src/index.tsx 1142–1172) -/

/-- The share computation of `scanCode` for one track, generalised over
the target count `q` (the source fixes `q = 10`): `Math.ceil(q * 0.6)` is
the exact `⌈3q/5⌉ = (3q + 4) / 5` (no IEEE-754 divergence, see header).
Returns `(finalMyCount, otherCount)`. -/
def sampleShares (q selfPool otherPool : ℕ) : ℕ × ℕ :=
  let myCount := min ((3 * q + 4) / 5) selfPool
  let otherCount := min (q - myCount) otherPool
  let finalMyCount := min (q - otherCount) selfPool
  (finalMyCount, otherCount)

/-- The outcome of `scanCode` after assembling the question lists. -/
inductive ScanOutcome where
  | insufficientMaterial
  | ready
deriving DecidableEq, Repr

/-- The post-sampling gate of `scanCode` (src/index.tsx lines 1167–1172):
the source checks only `memQs.length < 3`; the comment-track length is in
scope but never tested. -/
def scanGate (memQsLen _commentQsLen : ℕ) : ScanOutcome :=
  if memQsLen < 3 then ScanOutcome.insufficientMaterial else ScanOutcome.ready

/-! ## The scoring engine (src/index.tsx lines 763–844, 981–1031) -/

/-- Type `AnswerType` from `src/index.tsx`. -/
inductive AnswerType where
  | remember
  | familiar
  | uncertain
  | foreign
deriving DecidableEq, Repr

/-- One answer record: confidence level plus ownership. -/
structure AnswerRec where
  type : AnswerType
  isMyCode : Bool
deriving DecidableEq, Repr

/-- The tallies accumulated by the two `for` loops of
`calculateVibeMetrics`. -/
structure VibeTallies where
  myCodeRecognized : ℕ
  myCodeFamiliar : ℕ
  myCodeUncertain : ℕ
  myCodeMisidentified : ℕ
  otherCodeCorrect : ℕ
  otherCodeFalseMemory : ℕ
deriving DecidableEq, Repr

/-- The self-answer tally loop of `calculateVibeMetrics`. -/
def tallyMy (t : VibeTallies) (a : AnswerRec) : VibeTallies :=
  match a.type with
  | AnswerType.remember => { t with myCodeRecognized := t.myCodeRecognized + 1 }
  | AnswerType.familiar => { t with myCodeFamiliar := t.myCodeFamiliar + 1 }
  | AnswerType.uncertain => { t with myCodeUncertain := t.myCodeUncertain + 1 }
  | AnswerType.foreign => { t with myCodeMisidentified := t.myCodeMisidentified + 1 }

/-- The other-answer tally loop of `calculateVibeMetrics`. -/
def tallyOther (t : VibeTallies) (a : AnswerRec) : VibeTallies :=
  match a.type with
  | AnswerType.remember => { t with otherCodeFalseMemory := t.otherCodeFalseMemory + 1 }
  | AnswerType.familiar => { t with otherCodeFalseMemory := t.otherCodeFalseMemory + 1 }
  | AnswerType.uncertain => { t with otherCodeCorrect := t.otherCodeCorrect + 1 }
  | AnswerType.foreign => { t with otherCodeCorrect := t.otherCodeCorrect + 1 }

/-- The result record of `calculateVibeMetrics`. -/
structure VibeMetrics where
  myCodeTotal : ℕ
  otherCodeTotal : ℕ
  tallies : VibeTallies
  vibeScore : ℤ
deriving DecidableEq, Repr

/-- Function `calculateVibeMetrics` from `src/index.tsx`: split the answer log by
ownership, tally the confidence levels, and compute
`min(100, Math.round(forgetRate*50 + fuzzyRate*30 + falseMemoryRate*20))`
with `myTotal = myCodeAnswers.length || 1` (and similarly for other). -/
def calculateVibeMetrics (answers : List AnswerRec) : VibeMetrics :=
  let myCodeAnswers := answers.filter fun a => a.isMyCode
  let otherCodeAnswers := answers.filter fun a => !a.isMyCode
  let t := otherCodeAnswers.foldl tallyOther (myCodeAnswers.foldl tallyMy ⟨0, 0, 0, 0, 0, 0⟩)
  let myTotal : ℚ := if myCodeAnswers.length = 0 then 1 else myCodeAnswers.length
  let otherTotal : ℚ := if otherCodeAnswers.length = 0 then 1 else otherCodeAnswers.length
  let forgetRate := ((t.myCodeUncertain + t.myCodeMisidentified : ℕ) : ℚ) / myTotal
  let fuzzyRate := (t.myCodeFamiliar : ℚ) / myTotal
  let falseMemoryRate := (t.otherCodeFalseMemory : ℚ) / otherTotal
  let vibeScore := jsRound (forgetRate * 50 + fuzzyRate * 30 + falseMemoryRate * 20)
  ⟨myCodeAnswers.length, otherCodeAnswers.length, t, min 100 vibeScore⟩

/-- Source `velocityBonus` from `ResultScreen`: `Math.min(velocity.length * 3, 15)`. -/
def velocityBonus (velocityLen : ℕ) : ℕ := min (velocityLen * 3) 15

/-- The composite score of `ResultScreen` (src/index.tsx lines 839–842):
`Math.min(100, Math.round(memory * 0.5 + comment * 0.35 + velocityBonus))`. -/
def totalScore (memoryVibeScore commentVibeScore : ℤ) (velocityLen : ℕ) : ℤ :=
  min 100 (jsRound ((memoryVibeScore : ℚ) * (5 / 10) + (commentVibeScore : ℚ) * (35 / 100) +
    (velocityBonus velocityLen : ℚ)))

/-- Function `getVibeRating` from `src/index.tsx`, reduced to the rating title. -/
def getVibeRating (score : ℤ) : String :=
  if score ≤ 10 then "代码手工艺人"
  else if score ≤ 25 then "传统程序员"
  else if score ≤ 40 then "混合动力开发者"
  else if score ≤ 55 then "Vibe Coder"
  else if score ≤ 70 then "AI 协作大师"
  else if score ≤ 85 then "Prompt 工程师"
  else if score < 100 then "人形 Copilot"
  else "AI 傀儡"

/-! ## Claim-side definitions

Definitions written from the specification's wording, to be compared with
the source-side functions above. -/

/-- The unclamped track score as the spec words it: tally the confidence
levels by filtering the answer log, divide by `max 1 count`, and round the
weighted sum. -/
def trackScoreRaw (answers : List AnswerRec) : ℤ :=
  let selfAnswers := answers.filter fun a => a.isMyCode
  let otherAnswers := answers.filter fun a => !a.isMyCode
  let uncertain := (selfAnswers.filter fun a => a.type == AnswerType.uncertain).length
  let misidentified := (selfAnswers.filter fun a => a.type == AnswerType.foreign).length
  let familiar := (selfAnswers.filter fun a => a.type == AnswerType.familiar).length
  let falseMemory := (otherAnswers.filter fun a =>
    a.type == AnswerType.remember || a.type == AnswerType.familiar).length
  let myTotal : ℚ := max 1 selfAnswers.length
  let otherTotal : ℚ := max 1 otherAnswers.length
  jsRound (((uncertain + misidentified : ℕ) : ℚ) / myTotal * 50 +
    (familiar : ℚ) / myTotal * 30 + (falseMemory : ℚ) / otherTotal * 20)

/-- The track score as the claim states it: `min(100, trackScoreRaw)`. -/
def trackScoreSpec (answers : List AnswerRec) : ℤ := min 100 (trackScoreRaw answers)

/-- Equality of two character lists up to whitespace run-lengths: equal
non-whitespace characters in the same order, with each maximal whitespace
run allowed to be replaced by any other non-empty whitespace run
("content differs only in whitespace run-length"). -/
inductive WsEquiv : List Char → List Char → Prop where
  | nil : WsEquiv [] []
  | cons {c : Char} {l1 l2 : List Char} :
      isJsSpace c = false → WsEquiv l1 l2 → WsEquiv (c :: l1) (c :: l2)
  | run {r1 r2 l1 l2 : List Char} :
      r1 ≠ [] → r2 ≠ [] → (∀ c ∈ r1, isJsSpace c = true) →
      (∀ c ∈ r2, isJsSpace c = true) → WsEquiv l1 l2 →
      WsEquiv (r1 ++ l1) (r2 ++ l2)

end VibeScore

/-! # Theorems -/

namespace VibeScore

/-! ## C1: the snippet windower -/

/-- C1 is refuted at a block of length 5: the windowed snippet has length
4, not 5, although 5 lies in `[4, 12]` (the claim asserts the snippet
length equals `L` exactly for every `L` in `[4, 12]`). -/
theorem C1_counterexample :
    (windowSnippet ["l1;", "l2;", "l3;", "l4;", "l5;"] 0).length = 4 ∧
    ¬ (windowSnippet ["l1;", "l2;", "l3;", "l4;", "l5;"] 0).length = 5 := by
  decide

/-- C1 (amended): for every finished code block (`L ≥ 4`) and every start
offset the windower can draw (`startIdx ≤ L - len`), the windowed snippet
length equals `clamp(floor(L*0.7), MIN_SNIPPET_LINES, min(MAX_SNIPPET_LINES, L))`.
Within `[4, 12]` this equals `L` only at `L = 4` — it is 4 for `L = 5` and
8 for `L = 12` — and for `L = 20` it is 12 (capped). -/
theorem C1_window_length (block : List String) (startIdx : ℕ)
    (hL : MIN_SNIPPET_LINES ≤ block.length)
    (hs : startIdx ≤ block.length - windowLen block.length) :
    (windowSnippet block startIdx).length =
      max MIN_SNIPPET_LINES
        (min (7 * block.length / 10) (min MAX_SNIPPET_LINES block.length)) ∧
    windowLen 4 = 4 ∧ windowLen 5 = 4 ∧ windowLen 12 = 8 ∧ windowLen 20 = 12 := by
  refine ⟨?_, by decide, by decide, by decide, by decide⟩
  have hlen : (windowSnippet block startIdx).length = windowLen block.length := by
    have hle : windowLen block.length ≤ block.length - startIdx := by
      have h1 : windowLen block.length ≤ block.length := by
        unfold windowLen
        omega
      omega
    simp only [windowSnippet, List.length_take, List.length_drop]
    omega
  rw [hlen]
  unfold windowLen MIN_SNIPPET_LINES MAX_SNIPPET_LINES at *
  omega

/-- Witness for `C1_window_length`: a concrete 5-line block with start
offset 1. -/
theorem C1_window_length_witness :
    MIN_SNIPPET_LINES ≤ (["l1;", "l2;", "l3;", "l4;", "l5;"] : List String).length ∧
    (windowSnippet ["l1;", "l2;", "l3;", "l4;", "l5;"] 1).length =
      max MIN_SNIPPET_LINES (min (7 * 5 / 10) (min MAX_SNIPPET_LINES 5)) :=
  ⟨by decide, (C1_window_length ["l1;", "l2;", "l3;", "l4;", "l5;"] 1
    (by decide) (by decide)).1⟩

/-! ## C3: the insufficient-material gate -/

/-- C3 is refuted: with 3 code-track questions and 0 comment-track
questions (a comment-track shortfall below 3) the run proceeds instead of
aborting. -/
theorem C3_counterexample :
    scanGate 3 0 = ScanOutcome.ready ∧ (0 : ℕ) < 3 := by decide

/-- C3 (amended): `scanCode` aborts with the insufficient-material error
iff the code (memory) track has fewer than 3 questions; the comment-track
count is never consulted. -/
theorem C3_gate_code_track_only (memQsLen commentQsLen : ℕ) :
    scanGate memQsLen commentQsLen = ScanOutcome.insufficientMaterial ↔ memQsLen < 3 := by
  unfold scanGate
  split <;> simp_all

/-! ## C6: the composite score -/

/-- C6 (confirmed): the composite score is
`min(100, round(code*0.5 + comment*0.35 + velocityBonus))` with
`velocityBonus = min(highOutputDayCount*3, 15)`, and whenever the weighted
sum exceeds 100 the result is exactly 100. -/
theorem C6_composite_clamp (c m : ℤ) (vlen : ℕ) :
    totalScore c m vlen =
      min 100 (jsRound ((c : ℚ) * (5 / 10) + (m : ℚ) * (35 / 100) +
        ((min (vlen * 3) 15 : ℕ) : ℚ))) ∧
    (100 < (c : ℚ) * (5 / 10) + (m : ℚ) * (35 / 100) + ((velocityBonus vlen : ℕ) : ℚ) →
      totalScore c m vlen = 100) := by
  constructor
  · rfl
  · intro h
    have h100 : (100 : ℤ) ≤ jsRound ((c : ℚ) * (5 / 10) + (m : ℚ) * (35 / 100) +
        ((velocityBonus vlen : ℕ) : ℚ)) := by
      have : (100 : ℚ) + 1 / 2 ≤ (c : ℚ) * (5 / 10) + (m : ℚ) * (35 / 100) +
          ((velocityBonus vlen : ℕ) : ℚ) + 1 / 2 := by linarith
      calc (100 : ℤ) = ⌊(100 : ℚ) + 1 / 2⌋ := by norm_num
        _ ≤ _ := Int.floor_le_floor this
    unfold totalScore
    omega

/-- Witness for `C6_composite_clamp`: sub-scores 110 and 100 with 10
high-output days give a weighted sum of 105, clamped to exactly 100. -/
theorem C6_composite_clamp_witness :
    100 < ((110 : ℤ) : ℚ) * (5 / 10) + ((100 : ℤ) : ℚ) * (35 / 100) +
      ((velocityBonus 10 : ℕ) : ℚ) ∧
    totalScore 110 100 10 = 100 :=
  ⟨by norm_num [velocityBonus], (C6_composite_clamp 110 100 10).2
    (by norm_num [velocityBonus])⟩

/-! ## C8: the sampler shares -/

/-- C8 (confirmed): the sampler's shares follow
`selfShare = min(ceil(Q*0.6), selfPool)`,
`otherShare = min(Q - selfShare, otherPool)`,
`finalSelfShare = min(Q - otherShare, selfPool)`; in particular for
`selfPool = 2, otherPool = 20, Q = 10` the final shares are `(2, 8)`,
10 questions in total. -/
theorem C8_sampler_shares (q selfPool otherPool : ℕ) :
    (((3 * q + 4) / 5 : ℕ) : ℤ) = ⌈(q : ℚ) * (6 / 10)⌉ ∧
    sampleShares q selfPool otherPool =
      (min (q - min (q - min ((3 * q + 4) / 5) selfPool) otherPool) selfPool,
       min (q - min ((3 * q + 4) / 5) selfPool) otherPool) ∧
    sampleShares 10 2 20 = (2, 8) ∧
    (sampleShares 10 2 20).1 + (sampleShares 10 2 20).2 = 10 := by
  refine ⟨?_, rfl, by decide, by decide⟩
  have hmod := Nat.div_add_mod (3 * q + 4) 5
  have hlt : (3 * q + 4) % 5 < 5 := Nat.mod_lt _ (by norm_num)
  have hA : 3 * q ≤ 5 * ((3 * q + 4) / 5) := by omega
  have hB : 5 * ((3 * q + 4) / 5) < 3 * q + 5 := by omega
  have hA' : (3 * q : ℚ) ≤ 5 * (((3 * q + 4) / 5 : ℕ) : ℚ) := by exact_mod_cast hA
  have hB' : 5 * (((3 * q + 4) / 5 : ℕ) : ℚ) < 3 * q + 5 := by exact_mod_cast hB
  symm
  rw [Int.ceil_eq_iff, Int.cast_natCast]
  constructor
  · linarith
  · linarith

/-! ## C5 and C10: the scoring engine -/

/-- The self-answer tally loop, closed form: each confidence level counts
its matching answers. -/
theorem foldl_tallyMy (l : List AnswerRec) (t : VibeTallies) :
    l.foldl tallyMy t =
      ⟨t.myCodeRecognized + (l.filter fun a => a.type == AnswerType.remember).length,
       t.myCodeFamiliar + (l.filter fun a => a.type == AnswerType.familiar).length,
       t.myCodeUncertain + (l.filter fun a => a.type == AnswerType.uncertain).length,
       t.myCodeMisidentified + (l.filter fun a => a.type == AnswerType.foreign).length,
       t.otherCodeCorrect, t.otherCodeFalseMemory⟩ := by
  induction l generalizing t with
  | nil => simp
  | cons a l ih =>
    rcases a with ⟨ty, mine⟩
    cases ty <;>
      simp_all [tallyMy, List.filter_cons, VibeTallies.mk.injEq] <;> omega

/-- The other-answer tally loop, closed form. -/
theorem foldl_tallyOther (l : List AnswerRec) (t : VibeTallies) :
    l.foldl tallyOther t =
      ⟨t.myCodeRecognized, t.myCodeFamiliar, t.myCodeUncertain, t.myCodeMisidentified,
       t.otherCodeCorrect + (l.filter fun a =>
         a.type == AnswerType.uncertain || a.type == AnswerType.foreign).length,
       t.otherCodeFalseMemory + (l.filter fun a =>
         a.type == AnswerType.remember || a.type == AnswerType.familiar).length⟩ := by
  induction l generalizing t with
  | nil => simp
  | cons a l ih =>
    rcases a with ⟨ty, mine⟩
    cases ty <;>
      simp_all [tallyOther, List.filter_cons, VibeTallies.mk.injEq] <;> omega

/-- Rounding is bounded by any integer bounding its argument. -/
theorem jsRound_le_int {q : ℚ} {n : ℤ} (h : q ≤ (n : ℚ)) : jsRound q ≤ n := by
  unfold jsRound
  have h1 : ⌊q + 1 / 2⌋ ≤ ⌊(1 : ℚ) / 2 + (n : ℚ)⌋ := Int.floor_le_floor (by linarith)
  rw [Int.floor_add_int] at h1
  norm_num at h1
  exact h1

/-- Expression `length || 1` in JavaScript equals `max 1 length`. -/
theorem ite_length_eq_max (n : ℕ) :
    (if n = 0 then (1 : ℚ) else (n : ℚ)) = max 1 (n : ℚ) := by
  rcases n with _ | n
  · simp
  · rw [if_neg (by omega), max_eq_right]
    exact_mod_cast Nat.succ_le_succ (Nat.zero_le n)

/-- Function `calculateVibeMetrics` computes exactly `min 100 trackScoreRaw`
(shared by the C5 and C10 theorems). -/
theorem vibeScore_eq_spec (answers : List AnswerRec) :
    (calculateVibeMetrics answers).vibeScore = min 100 (trackScoreRaw answers) := by
  simp only [calculateVibeMetrics, trackScoreRaw]
  rw [foldl_tallyMy, foldl_tallyOther]
  dsimp only
  rw [ite_length_eq_max, ite_length_eq_max]
  simp only [Nat.zero_add]

/-- The three self-track tallies are disjoint, so their sum is bounded by
the number of self answers. -/
theorem tally_sum_le_length (l : List AnswerRec) :
    ((l.filter fun a => a.type == AnswerType.uncertain).length +
      (l.filter fun a => a.type == AnswerType.foreign).length) +
      (l.filter fun a => a.type == AnswerType.familiar).length ≤ l.length := by
  induction l with
  | nil => simp
  | cons a l ih =>
    rcases a with ⟨ty, mine⟩
    cases ty <;> simp_all [List.filter_cons] <;> omega

/-- The unclamped track score is at most 70 (shared helper). -/
theorem trackScoreRaw_le_70 (answers : List AnswerRec) :
    trackScoreRaw answers ≤ 70 := by
  simp only [trackScoreRaw]
  set selfAnswers := answers.filter fun a => a.isMyCode with hself
  set otherAnswers := answers.filter fun a => !a.isMyCode with hother
  set u := (selfAnswers.filter fun a => a.type == AnswerType.uncertain).length with hu
  set m := (selfAnswers.filter fun a => a.type == AnswerType.foreign).length with hm
  set f := (selfAnswers.filter fun a => a.type == AnswerType.familiar).length with hf
  set fm := (otherAnswers.filter fun a =>
    a.type == AnswerType.remember || a.type == AnswerType.familiar).length with hfm
  have hsum : u + m + f ≤ selfAnswers.length := tally_sum_le_length selfAnswers
  have hfm_le : fm ≤ otherAnswers.length := by
    rw [hfm]
    exact List.length_filter_le _ _
  have hM1 : (1 : ℚ) ≤ max 1 (selfAnswers.length : ℚ) := le_max_left _ _
  have hMpos : (0 : ℚ) < max 1 (selfAnswers.length : ℚ) := by linarith
  have hOpos : (0 : ℚ) < max 1 (otherAnswers.length : ℚ) := by
    have := le_max_left (1 : ℚ) (otherAnswers.length : ℚ)
    linarith
  have hMbound : ((u + m : ℕ) : ℚ) + (f : ℚ) ≤ max 1 (selfAnswers.length : ℚ) := by
    have h : ((u + m : ℕ) : ℚ) + (f : ℚ) ≤ (selfAnswers.length : ℚ) := by
      exact_mod_cast hsum
    exact h.trans (le_max_right _ _)
  have hObound : (fm : ℚ) ≤ max 1 (otherAnswers.length : ℚ) :=
    (by exact_mod_cast hfm_le : (fm : ℚ) ≤ (otherAnswers.length : ℚ)).trans
      (le_max_right _ _)
  have hpartA : ((u + m : ℕ) : ℚ) / max 1 (selfAnswers.length : ℚ) * 50 +
      (f : ℚ) / max 1 (selfAnswers.length : ℚ) * 30 ≤ 50 := by
    rw [div_mul_eq_mul_div, div_mul_eq_mul_div, div_add_div_same, div_le_iff₀ hMpos]
    have hf0 : (0 : ℚ) ≤ (f : ℚ) := by positivity
    nlinarith
  have hpartB : (fm : ℚ) / max 1 (otherAnswers.length : ℚ) * 20 ≤ 20 := by
    rw [div_mul_eq_mul_div, div_le_iff₀ hOpos]
    nlinarith
  apply jsRound_le_int
  have h70 : (((70 : ℤ) : ℚ)) = (70 : ℚ) := by norm_num
  rw [h70]
  linarith

/-- C5 (confirmed): for every answer log the track score equals
`min(100, round(forgetRate*50 + fuzzyRate*30 + falseMemoryRate*20))` with
the rates over `max 1 count`; for the spec's 10-self/10-other example the
score is exactly 27. -/
theorem C5_track_score (answers : List AnswerRec) :
    (calculateVibeMetrics answers).vibeScore = trackScoreSpec answers ∧
    (calculateVibeMetrics
      (List.replicate 5 ⟨AnswerType.remember, true⟩ ++
       List.replicate 2 ⟨AnswerType.familiar, true⟩ ++
       List.replicate 2 ⟨AnswerType.uncertain, true⟩ ++
       List.replicate 1 ⟨AnswerType.foreign, true⟩ ++
       List.replicate 3 ⟨AnswerType.remember, false⟩ ++
       List.replicate 7 ⟨AnswerType.foreign, false⟩)).vibeScore = 27 := by
  constructor
  · exact vibeScore_eq_spec answers
  · simp [calculateVibeMetrics, jsRound, List.filter, List.foldl, tallyMy, tallyOther]
    norm_num

/-- C10 (confirmed): every track score is at most 70, the `min(100, ·)`
clamp on a track score never activates, and the composite total is at most
`round(70*0.5 + 70*0.35 + 15) = 75`, so the 100-point rating tier is
unreachable. -/
theorem C10_score_ceiling (answers a1 a2 : List AnswerRec) (vlen : ℕ) :
    (calculateVibeMetrics answers).vibeScore = trackScoreRaw answers ∧
    (calculateVibeMetrics answers).vibeScore ≤ 70 ∧
    jsRound ((70 : ℚ) * (5 / 10) + (70 : ℚ) * (35 / 100) + 15) = 75 ∧
    totalScore (calculateVibeMetrics a1).vibeScore
      (calculateVibeMetrics a2).vibeScore vlen ≤ 75 ∧
    getVibeRating (totalScore (calculateVibeMetrics a1).vibeScore
      (calculateVibeMetrics a2).vibeScore vlen) ≠ "AI 傀儡" := by
  have hraw : ∀ l : List AnswerRec,
      (calculateVibeMetrics l).vibeScore = trackScoreRaw l := by
    intro l
    rw [vibeScore_eq_spec l, min_eq_right]
    have := trackScoreRaw_le_70 l
    omega
  have htot : totalScore (calculateVibeMetrics a1).vibeScore
      (calculateVibeMetrics a2).vibeScore vlen ≤ 75 := by
    have h1 : (calculateVibeMetrics a1).vibeScore ≤ 70 := by
      rw [hraw a1]
      exact trackScoreRaw_le_70 a1
    have h2 : (calculateVibeMetrics a2).vibeScore ≤ 70 := by
      rw [hraw a2]
      exact trackScoreRaw_le_70 a2
    have hb : ((velocityBonus vlen : ℕ) : ℚ) ≤ 15 := by
      have : velocityBonus vlen ≤ 15 := min_le_right _ _
      exact_mod_cast this
    have h1q : ((calculateVibeMetrics a1).vibeScore : ℚ) ≤ 70 := by exact_mod_cast h1
    have h2q : ((calculateVibeMetrics a2).vibeScore : ℚ) ≤ 70 := by exact_mod_cast h2
    have hfloor : jsRound (((calculateVibeMetrics a1).vibeScore : ℚ) * (5 / 10) +
        ((calculateVibeMetrics a2).vibeScore : ℚ) * (35 / 100) +
        ((velocityBonus vlen : ℕ) : ℚ)) ≤ 75 := by
      apply jsRound_le_int
      push_cast
      linarith
    exact le_trans (min_le_right _ _) hfloor
  refine ⟨hraw answers, ?_, by norm_num [jsRound], htot, ?_⟩
  · rw [hraw answers]
    exact trackScoreRaw_le_70 answers
  · have hlt : totalScore (calculateVibeMetrics a1).vibeScore
        (calculateVibeMetrics a2).vibeScore vlen < 100 := by omega
    unfold getVibeRating
    split_ifs <;> decide

/-! ## C9: the velocity aggregator -/

/-- Membership in an `insertDesc` insertion. -/
theorem mem_insertDesc {x y : DailyCodeStats} {l : List DailyCodeStats} :
    x ∈ insertDesc y l ↔ x = y ∨ x ∈ l := by
  induction l with
  | nil => simp [insertDesc]
  | cons z l ih =>
    by_cases h : z.linesAdded < y.linesAdded
    · simp [insertDesc, h]
    · simp only [insertDesc, if_neg h, List.mem_cons, ih]
      tauto

/-- Insertion via `insertDesc` preserves descending sortedness by `linesAdded`. -/
theorem sorted_insertDesc {x : DailyCodeStats} {l : List DailyCodeStats}
    (h : l.Sorted fun a b => b.linesAdded ≤ a.linesAdded) :
    (insertDesc x l).Sorted fun a b => b.linesAdded ≤ a.linesAdded := by
  induction l with
  | nil => simp [insertDesc]
  | cons y l ih =>
    rw [List.sorted_cons] at h
    by_cases hxy : y.linesAdded < x.linesAdded
    · rw [insertDesc, if_pos hxy, List.sorted_cons]
      refine ⟨?_, List.sorted_cons.mpr h⟩
      intro b hb
      rcases List.mem_cons.mp hb with rfl | hb
      · omega
      · have := h.1 b hb
        omega
    · rw [insertDesc, if_neg hxy, List.sorted_cons]
      refine ⟨?_, ih h.2⟩
      intro b hb
      rcases mem_insertDesc.mp hb with rfl | hb
      · omega
      · exact h.1 b hb

/-- Membership is preserved by the descending insertion sort. -/
theorem mem_sortByLinesDesc {x : DailyCodeStats} {l : List DailyCodeStats} :
    x ∈ sortByLinesDesc l ↔ x ∈ l := by
  induction l with
  | nil => simp [sortByLinesDesc]
  | cons y l ih => simp [sortByLinesDesc, mem_insertDesc, ih]

/-- The descending insertion sort sorts. -/
theorem sorted_sortByLinesDesc (l : List DailyCodeStats) :
    (sortByLinesDesc l).Sorted fun a b => b.linesAdded ≤ a.linesAdded := by
  induction l with
  | nil => simp [sortByLinesDesc]
  | cons y l ih => exact sorted_insertDesc ih

/-- C9 (confirmed): the velocity output contains only days with more than
500 added lines, each carrying `avgLinesPerCommit = round(lines/commits)`;
it is sorted descending by `linesAdded` and holds at most 10 entries. -/
theorem C9_velocity_invariants (records : List (String × ℕ)) :
    (∀ d ∈ analyzeDailyVelocity records,
        500 < d.linesAdded ∧
        d.avgLinesPerCommit = jsRound ((d.linesAdded : ℚ) / (d.commits : ℚ))) ∧
    (analyzeDailyVelocity records).Sorted (fun a b => b.linesAdded ≤ a.linesAdded) ∧
    (analyzeDailyVelocity records).length ≤ 10 := by
  refine ⟨?_, ?_, ?_⟩
  · intro d hd
    have hd1 : d ∈ sortByLinesDesc (((records.foldl updateStats []).map fun e =>
        DailyCodeStats.mk e.1 e.2.1 e.2.2 (jsRound ((e.2.1 : ℚ) / (e.2.2 : ℚ)))).filter
          fun d => 500 < d.linesAdded) :=
      (List.take_sublist _ _).subset hd
    have hd2 := mem_sortByLinesDesc.mp hd1
    rw [List.mem_filter] at hd2
    refine ⟨by simpa using hd2.2, ?_⟩
    rcases List.mem_map.mp hd2.1 with ⟨e, _, rfl⟩
    rfl
  · exact List.Pairwise.sublist (List.take_sublist _ _) (sorted_sortByLinesDesc _)
  · simp only [analyzeDailyVelocity]
    exact List.length_take_le 10 _

/-- Witness for `C9_velocity_invariants`: a single 600-line day survives
with average 600 and satisfies the invariants. -/
theorem C9_velocity_invariants_witness :
    (500 < (DailyCodeStats.mk "d1" 600 1 600).linesAdded ∧
      (DailyCodeStats.mk "d1" 600 1 600).avgLinesPerCommit =
        jsRound (((DailyCodeStats.mk "d1" 600 1 600).linesAdded : ℚ) /
          ((DailyCodeStats.mk "d1" 600 1 600).commits : ℚ))) := by
  have hcomp : analyzeDailyVelocity [("d1", 600)] = [DailyCodeStats.mk "d1" 600 1 600] := by
    simp [analyzeDailyVelocity, updateStats, sortByLinesDesc, insertDesc, jsRound,
      List.foldl, List.filter, List.map]
    norm_num
  have hmem : DailyCodeStats.mk "d1" 600 1 600 ∈ analyzeDailyVelocity [("d1", 600)] := by
    rw [hcomp]
    exact List.mem_singleton.mpr rfl
  exact (C9_velocity_invariants [("d1", 600)]).1 _ hmem

/-! ## C2: boundary handling of the block accumulator -/

/-- C2 is refuted: `return;` is a noise line, yet the two substantive
lines before it and the two after it end up in one common code block —
the short buffer is retained across the noise line, not discarded. -/
theorem C2_counterexample :
    isNoiseLine "return;" = true ∧
    isFixedPattern "return;" = false ∧
    (scanFileLines
      [ "@@ -1,2 +1,3 @@", "+alpha1 = beta + 1;", "+alpha2 = beta + 2;",
        "+return;", "+alpha3 = beta + 3;", "+alpha4 = beta + 4;" ]).codeBlocks =
      [[ "alpha1 = beta + 1;", "alpha2 = beta + 2;",
         "alpha3 = beta + 3;", "alpha4 = beta + 4;" ]] := by decide

/-- C2 (amended): at a hunk restart the code buffer is always cleared (a
short buffer is discarded); at a noise line or a context/deletion line a
buffer of at least `MIN_SNIPPET_LINES` lines is flushed, but a shorter
buffer is retained and keeps accumulating — so substantive lines separated
by a noise or context/deletion event can share a code block. -/
theorem C2_boundary_behavior (s : ScanState) (line : String) :
    (strStartsWith line "@@" = true →
      (scanStep s line).currentCode = [] ∧
      (s.currentCode.length < MIN_SNIPPET_LINES →
        (scanStep s line).codeBlocks = s.codeBlocks)) ∧
    (s.inHunk = true → strStartsWith line "@@" = false →
      strStartsWith line "+" = true → strStartsWith line "+++" = false →
      isFixedPattern (strDrop line 1) = false →
      (isCommentLine (strDrop line 1) &&
        decide (15 < (jsTrim (strDrop line 1)).length)) = false →
      isNoiseLine (strDrop line 1) = true →
      ((s.currentCode.length < MIN_SNIPPET_LINES →
        (scanStep s line).currentCode = s.currentCode ∧
        (scanStep s line).codeBlocks = s.codeBlocks) ∧
       (MIN_SNIPPET_LINES ≤ s.currentCode.length →
        (scanStep s line).currentCode = [] ∧
        (scanStep s line).codeBlocks = s.codeBlocks ++ [s.currentCode]))) ∧
    (s.inHunk = true → strStartsWith line "@@" = false →
      (strStartsWith line "+" && !strStartsWith line "+++") = false →
      (strStartsWith line "-" || strStartsWith line " ") = true →
      ((s.currentCode.length < MIN_SNIPPET_LINES → scanStep s line = s) ∧
       (MIN_SNIPPET_LINES ≤ s.currentCode.length →
        (scanStep s line).currentCode = [] ∧
        (scanStep s line).codeBlocks = s.codeBlocks ++ [s.currentCode]))) := by
  refine ⟨?_, ?_, ?_⟩
  · intro hAt
    unfold scanStep
    rw [if_pos hAt]
    constructor
    · rfl
    · intro hshort
      have : ¬ MIN_SNIPPET_LINES ≤ s.currentCode.length := by omega
      simp [this]
  · intro hHunk hAt hPlus hPPP hFixed hCmt hNoise
    constructor
    · intro hshort
      have hn : ¬ MIN_SNIPPET_LINES ≤ s.currentCode.length := by omega
      by_cases hcc : s.currentComment.length > 0 <;>
        simp [scanStep, hHunk, hAt, hPlus, hPPP, hFixed, hCmt, hNoise, hcc, hn]
    · intro hlong
      by_cases hcc : s.currentComment.length > 0 <;>
        simp [scanStep, hHunk, hAt, hPlus, hPPP, hFixed, hCmt, hNoise, hcc, hlong]
  · intro hHunk hAt hAdd hCtx
    constructor
    · intro hshort
      have hn : ¬ MIN_SNIPPET_LINES ≤ s.currentCode.length := by omega
      simp [scanStep, hHunk, hAt, hAdd, hCtx, hn]
    · intro hlong
      simp [scanStep, hHunk, hAt, hAdd, hCtx, hlong]

/-- Witness for `C2_boundary_behavior`: a two-line buffer survives a noise
line unchanged, and is cleared by a hunk restart. -/
theorem C2_boundary_behavior_witness :
    (scanStep ⟨[], [], ["alpha1 = beta + 1;", "alpha2 = beta + 2;"], [], [], true⟩
      "+return;").currentCode = ["alpha1 = beta + 1;", "alpha2 = beta + 2;"] ∧
    (scanStep ⟨[], [], ["alpha1 = beta + 1;", "alpha2 = beta + 2;"], [], [], true⟩
      "@@ -5,2 +5,3 @@").currentCode = [] := by
  constructor
  · exact (((C2_boundary_behavior
      ⟨[], [], ["alpha1 = beta + 1;", "alpha2 = beta + 2;"], [], [], true⟩
      "+return;").2.1 (by decide) (by decide) (by decide) (by decide) (by decide)
        (by decide) (by decide)).1 (by decide)).1
  · exact ((C2_boundary_behavior
      ⟨[], [], ["alpha1 = beta + 1;", "alpha2 = beta + 2;"], [], [], true⟩
      "@@ -5,2 +5,3 @@").1 (by decide)).1

/-! ## C4: short comment-starter lines -/

/-- C4 is refuted: `// sum fix` matches a comment pattern and trims to 10
characters (≤ 15), yet it is not noise — it lands inside a code block. -/
theorem C4_counterexample :
    isCommentLine "// sum fix" = true ∧
    (jsTrim "// sum fix").length ≤ 15 ∧
    isNoiseLine "// sum fix" = false ∧
    (scanFileLines
      [ "@@ -1,3 +1,4 @@", "+// sum fix", "+alpha1 = beta + 1;",
        "+alpha2 = beta + 2;", "+alpha3 = beta + 3;" ]).codeBlocks =
      [[ "// sum fix", "alpha1 = beta + 1;", "alpha2 = beta + 2;",
         "alpha3 = beta + 3;" ]] := by decide

/-- C4 (amended): an added line matching a comment pattern whose trimmed
length is at most 15 characters never enters the comment buffer, but it is
then treated like any other candidate code line: if it passes the noise
filter it is appended to the code buffer; only if it is also a noise line
does it enter no block. -/
theorem C4_short_comment_classification (s : ScanState) (line : String)
    (hHunk : s.inHunk = true) (hAt : strStartsWith line "@@" = false)
    (hPlus : strStartsWith line "+" = true) (hPPP : strStartsWith line "+++" = false)
    (hFixed : isFixedPattern (strDrop line 1) = false)
    (hComment : isCommentLine (strDrop line 1) = true)
    (hShort : (jsTrim (strDrop line 1)).length ≤ 15) :
    (scanStep s line).currentComment = [] ∧
    ((scanStep s line).commentBlocks = s.commentBlocks ∨
      (scanStep s line).commentBlocks =
        s.commentBlocks ++ [⟨s.currentComment, contextTail s.contextBuffer⟩]) ∧
    (isNoiseLine (strDrop line 1) = false →
      (scanStep s line).currentCode = s.currentCode ++ [strDrop line 1]) ∧
    (isNoiseLine (strDrop line 1) = true →
      (scanStep s line).currentCode = s.currentCode ∨
        (scanStep s line).currentCode = []) := by
  have hCmt : (isCommentLine (strDrop line 1) &&
      decide (15 < (jsTrim (strDrop line 1)).length)) = false := by
    simp [hComment]
    omega
  by_cases hNoise : isNoiseLine (strDrop line 1) = true
  · by_cases hcc : s.currentComment.length > 0
    all_goals by_cases hlong : MIN_SNIPPET_LINES ≤ s.currentCode.length
    all_goals simp [scanStep, hHunk, hAt, hPlus, hPPP, hFixed, hCmt, hNoise, hcc, hlong]
    all_goals simp_all [List.length_eq_zero]
  · rw [Bool.not_eq_true] at hNoise
    by_cases hcc : s.currentComment.length > 0
    all_goals simp [scanStep, hHunk, hAt, hPlus, hPPP, hFixed, hCmt, hNoise, hcc]
    all_goals simp_all [List.length_eq_zero]

/-- Witness for `C4_short_comment_classification`: `+// sum fix` appended
to a one-line code buffer. -/
theorem C4_short_comment_classification_witness :
    (scanStep ⟨[], [], ["alpha1 = beta + 1;"], [], ["alpha1 = beta + 1;"], true⟩
      "+// sum fix").currentCode = ["alpha1 = beta + 1;"] ++ [strDrop "+// sum fix" 1] := by
  exact (C4_short_comment_classification
    ⟨[], [], ["alpha1 = beta + 1;"], [], ["alpha1 = beta + 1;"], true⟩ "+// sum fix"
    (by decide) (by decide) (by decide) (by decide) (by decide) (by decide)
    (by decide)).2.2.1 (by decide)

/-! ## C7: fingerprints and deduplication -/

/-- Dropping leading whitespace skips over an all-whitespace run. -/
theorem dropWhile_space_append (r l : List Char)
    (hr : ∀ c ∈ r, isJsSpace c = true) :
    (r ++ l).dropWhile isJsSpace = l.dropWhile isJsSpace := by
  induction r with
  | nil => rfl
  | cons c r ih =>
    rw [List.cons_append, List.dropWhile_cons_of_pos (hr c (by simp))]
    exact ih fun c hc => hr c (by simp [hc])

/-- Collapsing in run state swallows an all-whitespace run. -/
theorem collapse_true_run (r l : List Char) (hr : ∀ c ∈ r, isJsSpace c = true) :
    collapseWs true (r ++ l) = collapseWs true l := by
  induction r with
  | nil => rfl
  | cons c r ih =>
    rw [List.cons_append, collapseWs, if_pos (hr c (by simp)), if_pos rfl]
    exact ih fun c hc => hr c (by simp [hc])

/-- Collapsing replaces a leading non-empty whitespace run by one space. -/
theorem collapse_false_run (r l : List Char) (hne : r ≠ [])
    (hr : ∀ c ∈ r, isJsSpace c = true) :
    collapseWs false (r ++ l) = ' ' :: collapseWs true l := by
  rcases r with _ | ⟨c, r⟩
  · exact absurd rfl hne
  · rw [List.cons_append, collapseWs, if_pos (hr c (by simp)), if_neg (by simp)]
    exact congrArg _ (collapse_true_run r l fun c hc => hr c (by simp [hc]))

/-- Whitespace collapsing is invariant under whitespace run-length changes. -/
theorem WsEquiv.collapse_eq {a b : List Char} (h : WsEquiv a b) :
    ∀ p : Bool, collapseWs p a = collapseWs p b := by
  induction h with
  | nil => intro p; rfl
  | cons hc _ ih =>
    intro p
    rw [collapseWs, collapseWs, if_neg (by simp [hc]), if_neg (by simp [hc])]
    exact congrArg _ (ih false)
  | run hr1 hr2 ha1 ha2 _ ih =>
    intro p
    cases p
    · rw [collapse_false_run _ _ hr1 ha1, collapse_false_run _ _ hr2 ha2]
      exact congrArg _ (ih true)
    · rw [collapse_true_run _ _ ha1, collapse_true_run _ _ ha2]
      exact ih true

/-- Whitespace-run equivalence survives dropping leading whitespace. -/
theorem WsEquiv.dropWhile_ws {a b : List Char} (h : WsEquiv a b) :
    WsEquiv (a.dropWhile isJsSpace) (b.dropWhile isJsSpace) := by
  induction h with
  | nil => exact .nil
  | cons hc h _ =>
    rw [List.dropWhile_cons_of_neg (by simp [hc]),
      List.dropWhile_cons_of_neg (by simp [hc])]
    exact .cons hc h
  | run hr1 hr2 ha1 ha2 _ ih =>
    rw [dropWhile_space_append _ _ ha1, dropWhile_space_append _ _ ha2]
    exact ih

/-- Whitespace-run equivalence survives appending one non-space character. -/
theorem WsEquiv.append_char {a b : List Char} (h : WsEquiv a b) {c : Char}
    (hc : isJsSpace c = false) : WsEquiv (a ++ [c]) (b ++ [c]) := by
  induction h with
  | nil => exact .cons hc .nil
  | cons hc' _ ih =>
    rw [List.cons_append, List.cons_append]
    exact .cons hc' ih
  | run hr1 hr2 ha1 ha2 _ ih =>
    rw [List.append_assoc, List.append_assoc]
    exact .run hr1 hr2 ha1 ha2 ih

/-- Whitespace-run equivalence survives appending whitespace runs. -/
theorem WsEquiv.append_run {a b : List Char} (h : WsEquiv a b)
    {r1 r2 : List Char} (hr1 : r1 ≠ []) (hr2 : r2 ≠ [])
    (ha1 : ∀ c ∈ r1, isJsSpace c = true) (ha2 : ∀ c ∈ r2, isJsSpace c = true) :
    WsEquiv (a ++ r1) (b ++ r2) := by
  induction h with
  | nil =>
    have := WsEquiv.run hr1 hr2 ha1 ha2 WsEquiv.nil
    simpa using this
  | cons hc' _ ih =>
    rw [List.cons_append, List.cons_append]
    exact .cons hc' ih
  | run hr1' hr2' ha1' ha2' _ ih =>
    rw [List.append_assoc, List.append_assoc]
    exact .run hr1' hr2' ha1' ha2' ih

/-- Whitespace-run equivalence survives reversal. -/
theorem WsEquiv.reverse_ws {a b : List Char} (h : WsEquiv a b) :
    WsEquiv a.reverse b.reverse := by
  induction h with
  | nil => exact .nil
  | cons hc _ ih =>
    rw [List.reverse_cons, List.reverse_cons]
    exact ih.append_char hc
  | run hr1 hr2 ha1 ha2 _ ih =>
    rw [List.reverse_append, List.reverse_append]
    refine ih.append_run (by simpa using hr1) (by simpa using hr2) ?_ ?_
    · intro c hc
      exact ha1 c (List.mem_reverse.mp hc)
    · intro c hc
      exact ha2 c (List.mem_reverse.mp hc)

/-- Whitespace-run equivalence survives `trim`. -/
theorem WsEquiv.trim_ws {a b : List Char} (h : WsEquiv a b) :
    WsEquiv (jsTrimList a) (jsTrimList b) :=
  h.dropWhile_ws.reverse_ws.dropWhile_ws.reverse_ws

/-- Contents differing only in whitespace run-lengths have equal
fingerprints (trim, collapse and truncation are all invariant). -/
theorem hashContent_eq_of_wsEquiv {c1 c2 : List String}
    (h : WsEquiv (joinLines c1) (joinLines c2)) :
    hashContent c1 = hashContent c2 := by
  unfold hashContent
  rw [h.trim_ws.collapse_eq false]

/-- Identical fingerprints collapse a pair of fragments to the first one. -/
theorem dedup_pair_eq {c1 c2 : List String} (h : hashContent c1 = hashContent c2) :
    deduplicateSnippets [mkFragment c1, mkFragment c2] = [mkFragment c1] := by
  simp [deduplicateSnippets, dedupLoop, mkFragment, h]

/-- The `seen`-set short-cut of `deduplicateSnippets` is redundant: when
every fragment's `hash` field is its content fingerprint (as at every
creation site), the loop coincides with the claim's
reject-iff-similar-to-an-accepted-fragment scan. -/
theorem dedupLoop_eq_spec (frags : List Fragment) :
    ∀ (seen : List (List Char)) (result : List Fragment),
      (∀ f ∈ frags, f.hash = hashContent f.content) →
      (∀ r ∈ result, r.hash = hashContent r.content) →
      (∀ h : List Char, h ∈ seen ↔ ∃ r ∈ result, r.hash = h) →
      dedupLoop frags seen result = dedupSpecLoop frags result := by
  induction frags with
  | nil =>
    intro seen result _ _ _
    rfl
  | cons f rest ih =>
    intro seen result hwf hwfr hinv
    have hwf' : ∀ g ∈ rest, g.hash = hashContent g.content := fun g hg =>
      hwf g (by simp [hg])
    by_cases hmem : f.hash ∈ seen
    · obtain ⟨r, hr, hrh⟩ := (hinv f.hash).mp hmem
      have heq : hashContent f.content = hashContent r.content := by
        rw [← hwf f (by simp), ← hwfr r hr, hrh]
      have hsim : isSimilarSnippet f.content r.content = true := by
        simp [isSimilarSnippet, heq]
      have hany : (result.any fun e => isSimilarSnippet f.content e.content) = true :=
        List.any_eq_true.mpr ⟨r, hr, hsim⟩
      simp only [dedupLoop, dedupSpecLoop, if_pos hmem, hany, if_true]
      exact ih seen result hwf' hwfr hinv
    · by_cases hany : (result.any fun e => isSimilarSnippet f.content e.content) = true
      · simp only [dedupLoop, dedupSpecLoop, if_neg hmem, hany, if_true]
        exact ih seen result hwf' hwfr hinv
      · rw [Bool.not_eq_true] at hany
        simp only [dedupLoop, dedupSpecLoop, if_neg hmem, hany, Bool.false_eq_true,
          if_false]
        refine ih (seen ++ [f.hash]) (result ++ [f]) hwf' ?_ ?_
        · intro r hr
          rcases List.mem_append.mp hr with hr' | hr'
          · exact hwfr r hr'
          · rw [List.mem_singleton.mp hr']
            exact hwf f (by simp)
        · intro h2
          rw [List.mem_append, List.mem_singleton, hinv h2]
          constructor
          · rintro (⟨r, hr, hrh⟩ | rfl)
            · exact ⟨r, by simp [hr], hrh⟩
            · exact ⟨f, by simp, rfl⟩
          · rintro ⟨r, hr, hrh⟩
            rcases List.mem_append.mp hr with hr' | hr'
            · exact Or.inl ⟨r, hr', hrh⟩
            · rw [List.mem_singleton.mp hr'] at hrh
              exact Or.inr hrh.symm

/-- C7 (confirmed): deduplication rejects a fragment iff it duplicates an
already-accepted one (byte-identical fingerprints or positional match
ratio above 0.8); the same content twice leaves one survivor, and contents
differing only in whitespace run-length collapse to one fragment. -/
theorem C7_dedup_characterization (frags : List Fragment)
    (hwf : ∀ f ∈ frags, f.hash = hashContent f.content) :
    deduplicateSnippets frags = dedupSpec frags ∧
    (∀ c : List String,
      deduplicateSnippets [mkFragment c, mkFragment c] = [mkFragment c]) ∧
    (∀ c1 c2 : List String, WsEquiv (joinLines c1) (joinLines c2) →
      (deduplicateSnippets [mkFragment c1, mkFragment c2]).length = 1) := by
  refine ⟨?_, ?_, ?_⟩
  · exact dedupLoop_eq_spec frags [] [] hwf (by simp) (by simp)
  · intro c
    exact dedup_pair_eq rfl
  · intro c1 c2 hws
    rw [dedup_pair_eq (hashContent_eq_of_wsEquiv hws)]
    rfl

/-- Witness for `C7_dedup_characterization`: the refinement evaluated on a
duplicated concrete fragment, and the whitespace-run collapse on
`"a  b"` vs `"a b"`. -/
theorem C7_dedup_characterization_witness :
    (∀ f ∈ [mkFragment ["alpha = beta;"], mkFragment ["alpha = beta;"]],
      f.hash = hashContent f.content) ∧
    deduplicateSnippets [mkFragment ["alpha = beta;"], mkFragment ["alpha = beta;"]] =
      dedupSpec [mkFragment ["alpha = beta;"], mkFragment ["alpha = beta;"]] ∧
    WsEquiv (joinLines ["a  b"]) (joinLines ["a b"]) ∧
    (deduplicateSnippets [mkFragment ["a  b"], mkFragment ["a b"]]).length = 1 := by
  have hws : WsEquiv (joinLines ["a  b"]) (joinLines ["a b"]) := by
    have hb : WsEquiv ['b'] ['b'] := .cons (by decide) .nil
    have hrun : WsEquiv ([' ', ' '] ++ ['b']) ([' '] ++ ['b']) :=
      .run (by decide) (by decide) (by decide) (by decide) hb
    exact .cons (by decide) hrun
  have hwf : ∀ f ∈ [mkFragment ["alpha = beta;"], mkFragment ["alpha = beta;"]],
      f.hash = hashContent f.content := by
    intro f hf
    rcases List.mem_cons.mp hf with rfl | hf
    · rfl
    · rw [List.mem_singleton.mp hf]
      rfl
  exact ⟨hwf, (C7_dedup_characterization _ hwf).1, hws,
    (C7_dedup_characterization [] (by simp)).2.2 _ _ hws⟩

end VibeScore
